import Mathlib

/-!
Verification of the composite variable-length-key hash table
(`UnsizedHashtable` in `src/common/hashtable/src/unsized_hashtable.rs`).

The five sub-tables (TableEmpty, three inline Table0 instances, the
FallbackKey Table0 instance) and the tail array are modelled by their
contracts: append-only association structures deduplicating by key
equality.  Machine words are modelled as `Nat`; every packed word in the
source is assembled from at most 8 bytes, so no `% 2^64` reduction is ever
reachable and the `Nat` value coincides with the `u64` value.  The 64-bit
fast hash is a black-box parameter `fastHash` threaded through every
definition that the source's `FastHash` trait reaches.
-/

/-- A byte, as stored in a key. -/
abbrev Byte := Fin 256

/-- `read_le(p, n)`: assemble a byte list as a little-endian number
(`utils::read_le`); byte 0 is the least significant. -/
def packLE (bs : List Byte) : Nat :=
  bs.foldr (fun b acc => b.val + 256 * acc) 0

/-- Byte `i` of the little-endian representation of `w`. -/
def byteAt (w i : Nat) : Nat := w / 256 ^ i % 256

/-- Truncate a number to a byte. -/
def mkByte (n : Nat) : Byte := ⟨n % 256, Nat.mod_lt _ (by norm_num)⟩

/-- The first `n` little-endian bytes of `w`
(reading the packed entry memory back as a byte slice). -/
def toLE (w n : Nat) : List Byte :=
  (List.range n).map (fun i => mkByte (byteAt w i))

/-- The loop `for i in (0..=7).rev() { if bytes[i] != 0 { ... } }` used by
`UnsizedHashtableEntryRefInner::key`: index of the most significant
non-zero byte of the final packed word, scanning from index 7 down. -/
def topIdx (w : Nat) : Option Nat :=
  if byteAt w 7 ≠ 0 then some 7
  else if byteAt w 6 ≠ 0 then some 6
  else if byteAt w 5 ≠ 0 then some 5
  else if byteAt w 4 ≠ 0 then some 4
  else if byteAt w 3 ≠ 0 then some 3
  else if byteAt w 2 ≠ 0 then some 2
  else if byteAt w 1 ≠ 0 then some 1
  else if byteAt w 0 ≠ 0 then some 0
  else none

/-- Provenance of the byte slice a `FallbackKey` points to: transient
caller memory, or a stable copy at a given arena slot. -/
inductive PtrLoc
  | transient
  | arena (idx : Nat)
deriving DecidableEq

/-- `FallbackKey`: pointed-to bytes, precomputed hash, and where the
pointer points (the source stores `NonNull<[u8]>`; we record the bytes
together with their provenance). -/
structure FallbackKey where
  bytes : List Byte
  hash : Nat
  loc : PtrLoc
deriving DecidableEq

/-- `FallbackKey::new`: remembers the (transient) slice and computes the
fast hash of the bytes. -/
def FallbackKey.new (fastHash : List Byte → Nat) (k : List Byte) : FallbackKey :=
  ⟨k, fastHash k, PtrLoc.transient⟩

/-- `FallbackKey::new_with_hash`: remembers the slice and the supplied
hash. -/
def FallbackKey.newWithHash (k : List Byte) (h : Nat) (l : PtrLoc) : FallbackKey :=
  ⟨k, h, l⟩

/-- `PartialEq for FallbackKey`: hashes equal and pointed-to byte slices
equal (provenance is invisible to equality, as the source dereferences
the pointers). -/
def fkEq (a b : FallbackKey) : Bool :=
  decide (a.hash = b.hash ∧ a.bytes = b.bytes)

/-- Index of the first entry matching a predicate (the sub-table lookup
contract: an open-addressing table finds the unique stored key equal to
the probe; stored order stands in for slot identity). -/
def lookupIdx {α : Type} (p : α → Bool) : List α → Option Nat
  | [] => none
  | a :: l => if p a then some 0 else (lookupIdx p l).map (fun n => n + 1)

/-- State of the composite table: arena contents, `key_size` counter, the
five sub-tables and the optional tail array.  Sub-tables are kept as
lists of stored keys in insertion order; an entry (value slot) is
identified by its index, which no operation but `clear` ever moves. -/
structure HState where
  arena : List (List Byte)
  keySize : Nat
  table0 : Bool
  table1 : List Nat
  table2 : List (Nat × Nat)
  table3 : List (Nat × Nat × Nat)
  table4 : List FallbackKey
  tails : Option (List FallbackKey)
deriving DecidableEq

/-- `with_capacity` / `new`: all sub-tables empty, no tail array. -/
def emptyTable : HState :=
  ⟨[], 0, false, [], [], [], [], none⟩

/-- A reference to an entry: which sub-table (or the tail array) and the
index of the value slot there. -/
inductive ERef
  | t0
  | t1 (i : Nat)
  | t2 (i : Nat)
  | t3 (i : Nat)
  | t4 (i : Nat)
  | tail (i : Nat)
deriving DecidableEq

/-- Outcome of an insert: `ok` carries the fresh (uninitialized) slot,
`err` the pre-existing one. -/
inductive InsRes
  | ok (e : ERef)
  | err (e : ERef)
deriving DecidableEq

/-- The entry reference carried by either arm of an insert result. -/
def resRef : InsRes → ERef
  | InsRes.ok e => e
  | InsRes.err e => e

/-- Whether an insert result is the `Ok` arm. -/
def resIsOk : InsRes → Bool
  | InsRes.ok _ => true
  | InsRes.err _ => false

/-- Destination sub-tables, in the order the dispatch can select them. -/
inductive Route
  | r0
  | r1
  | r2
  | r3
  | r4
deriving DecidableEq

/-- The match in `insert_and_entry` / `entry`, linearized in source order:
the `_ if key.last().copied() == Some(0)` guard is checked first, then the
length arms `0`, `1..=8`, `9..=16`, `17..=24`, `_`. -/
def routeOf (k : List Byte) : Route :=
  if k.getLast? = some 0 then Route.r4
  else if k.length = 0 then Route.r0
  else if k.length ≤ 8 then Route.r1
  else if k.length ≤ 16 then Route.r2
  else if k.length ≤ 24 then Route.r3
  else Route.r4

/-- The packed `InlineKey<0>` word for a key of length 1..=8:
`t[0] = read_le(key.as_ptr(), key.len())`. -/
def packT1 (k : List Byte) : Nat := packLE k

/-- The packed `InlineKey<1>` words for a key of length 9..=16:
a full 8-byte load then `read_le` of the remainder. -/
def packT2 (k : List Byte) : Nat × Nat :=
  (packLE (k.take 8), packLE (k.drop 8))

/-- The packed `InlineKey<2>` words for a key of length 17..=24:
two full 8-byte loads then `read_le` of the remainder. -/
def packT3 (k : List Byte) : Nat × Nat × Nat :=
  (packLE (k.take 8), packLE ((k.drop 8).take 8), packLE (k.drop 16))

/-- The dispatch of `insert_and_entry` after the tail check: route on the
key bytes, probe the chosen sub-table, and on a fresh T4 insert copy the
key into the arena and rewrite the stored key to the arena copy via
`set_key(FallbackKey::new_with_hash(s, e.key.hash))`, keeping the probe
hash; `key_size` grows by `key.len()` on every `Ok` but the empty key. -/
def insertMain (fastHash : List Byte → Nat) (s : HState) (k : List Byte) :
    InsRes × HState :=
  match routeOf k with
  | Route.r4 =>
    let probe := FallbackKey.new fastHash k
    match lookupIdx (fun f => fkEq probe f) s.table4 with
    | some i => (InsRes.err (ERef.t4 i), s)
    | none =>
      (InsRes.ok (ERef.t4 s.table4.length),
        { s with
            arena := s.arena ++ [k],
            table4 := s.table4 ++
              [FallbackKey.newWithHash k probe.hash (PtrLoc.arena s.arena.length)],
            keySize := s.keySize + k.length })
  | Route.r0 =>
    if s.table0 then (InsRes.err ERef.t0, s)
    else (InsRes.ok ERef.t0, { s with table0 := true })
  | Route.r1 =>
    let t := packT1 k
    match lookupIdx (fun w => decide (w = t)) s.table1 with
    | some i => (InsRes.err (ERef.t1 i), s)
    | none =>
      (InsRes.ok (ERef.t1 s.table1.length),
        { s with table1 := s.table1 ++ [t], keySize := s.keySize + k.length })
  | Route.r2 =>
    let t := packT2 k
    match lookupIdx (fun w => decide (w = t)) s.table2 with
    | some i => (InsRes.err (ERef.t2 i), s)
    | none =>
      (InsRes.ok (ERef.t2 s.table2.length),
        { s with table2 := s.table2 ++ [t], keySize := s.keySize + k.length })
  | Route.r3 =>
    let t := packT3 k
    match lookupIdx (fun w => decide (w = t)) s.table3 with
    | some i => (InsRes.err (ERef.t3 i), s)
    | none =>
      (InsRes.ok (ERef.t3 s.table3.length),
        { s with table3 := s.table3 ++ [t], keySize := s.keySize + k.length })

/-- `insert_and_entry`: a non-empty key with the tail array enabled is
appended there with `FallbackKey::new(key)` and always returns `Ok`;
anything else goes through the route dispatch. -/
def insert_and_entry (fastHash : List Byte → Nat) (s : HState) (k : List Byte) :
    InsRes × HState :=
  match s.tails with
  | some ts =>
    if k = [] then insertMain fastHash s k
    else
      (InsRes.ok (ERef.tail ts.length),
        { s with tails := some (ts ++ [FallbackKey.new fastHash k]) })
  | none => insertMain fastHash s k

/-- The dispatch of `insert_and_entry_with_hash` after the tail check.
Differences from `insertMain`, faithful to the source: the T4 probe is
`FallbackKey::new_with_hash(key, hash)` and the arena copy keeps the
supplied hash; the trailing-NUL `Ok` arm (source lines 1048-1065) does
NOT add to `key_size` while the length-at-least-25 `_` arm does (line
1142) - the merged `Route.r4` arm below separates the two on the same
trailing-NUL test the source match guard uses; the empty-key `Ok` arm
adds `key.len()` (which is zero). -/
def withHashMain (s : HState) (k : List Byte) (h : Nat) : InsRes × HState :=
  match routeOf k with
  | Route.r4 =>
    let probe := FallbackKey.newWithHash k h PtrLoc.transient
    match lookupIdx (fun f => fkEq probe f) s.table4 with
    | some i => (InsRes.err (ERef.t4 i), s)
    | none =>
      (InsRes.ok (ERef.t4 s.table4.length),
        { s with
            arena := s.arena ++ [k],
            table4 := s.table4 ++
              [FallbackKey.newWithHash k h (PtrLoc.arena s.arena.length)],
            keySize := if k.getLast? = some 0 then s.keySize
                       else s.keySize + k.length })
  | Route.r0 =>
    if s.table0 then (InsRes.err ERef.t0, s)
    else (InsRes.ok ERef.t0,
      { s with table0 := true, keySize := s.keySize + k.length })
  | Route.r1 =>
    let t := packT1 k
    match lookupIdx (fun w => decide (w = t)) s.table1 with
    | some i => (InsRes.err (ERef.t1 i), s)
    | none =>
      (InsRes.ok (ERef.t1 s.table1.length),
        { s with table1 := s.table1 ++ [t], keySize := s.keySize + k.length })
  | Route.r2 =>
    let t := packT2 k
    match lookupIdx (fun w => decide (w = t)) s.table2 with
    | some i => (InsRes.err (ERef.t2 i), s)
    | none =>
      (InsRes.ok (ERef.t2 s.table2.length),
        { s with table2 := s.table2 ++ [t], keySize := s.keySize + k.length })
  | Route.r3 =>
    let t := packT3 k
    match lookupIdx (fun w => decide (w = t)) s.table3 with
    | some i => (InsRes.err (ERef.t3 i), s)
    | none =>
      (InsRes.ok (ERef.t3 s.table3.length),
        { s with table3 := s.table3 ++ [t], keySize := s.keySize + k.length })

/-- `insert_and_entry_with_hash`: same tail check as `insert_and_entry`
(the tail path builds `FallbackKey::new(key)`, discarding the supplied
hash), then the with-hash dispatch. -/
def insert_and_entry_with_hash (fastHash : List Byte → Nat) (s : HState)
    (k : List Byte) (h : Nat) : InsRes × HState :=
  match s.tails with
  | some ts =>
    if k = [] then withHashMain s k h
    else
      (InsRes.ok (ERef.tail ts.length),
        { s with tails := some (ts ++ [FallbackKey.new fastHash k]) })
  | none => withHashMain s k h

/-- `entry`: probe the sub-table selected by the same routing match; the
T4 probe is a transient `FallbackKey::new(key)`.  The tail array is never
consulted. -/
def entry (fastHash : List Byte → Nat) (s : HState) (k : List Byte) :
    Option ERef :=
  match routeOf k with
  | Route.r4 =>
    (lookupIdx (fun f => fkEq (FallbackKey.new fastHash k) f) s.table4).map ERef.t4
  | Route.r0 => if s.table0 then some ERef.t0 else none
  | Route.r1 =>
    (lookupIdx (fun w => decide (w = packT1 k)) s.table1).map ERef.t1
  | Route.r2 =>
    (lookupIdx (fun w => decide (w = packT2 k)) s.table2).map ERef.t2
  | Route.r3 =>
    (lookupIdx (fun w => decide (w = packT3 k)) s.table3).map ERef.t3

/-- `entry_mut`: same routing and probes as `entry` (the source bodies are
identical up to mutability of the returned reference). -/
def entry_mut (fastHash : List Byte → Nat) (s : HState) (k : List Byte) :
    Option ERef :=
  match routeOf k with
  | Route.r4 =>
    (lookupIdx (fun f => fkEq (FallbackKey.new fastHash k) f) s.table4).map ERef.t4
  | Route.r0 => if s.table0 then some ERef.t0 else none
  | Route.r1 =>
    (lookupIdx (fun w => decide (w = packT1 k)) s.table1).map ERef.t1
  | Route.r2 =>
    (lookupIdx (fun w => decide (w = packT2 k)) s.table2).map ERef.t2
  | Route.r3 =>
    (lookupIdx (fun w => decide (w = packT3 k)) s.table3).map ERef.t3

/-- `get`: `entry(key).map(|e| e.get())`; a value slot is identified by
its entry reference. -/
def get (fastHash : List Byte → Nat) (s : HState) (k : List Byte) :
    Option ERef :=
  entry fastHash s k

/-- `get_mut`: `entry_mut(key)` followed by taking the value pointer. -/
def get_mut (fastHash : List Byte → Nat) (s : HState) (k : List Byte) :
    Option ERef :=
  entry_mut fastHash s k

/-- `UnsizedHashtableEntryRefInner::key`: reconstruct the key bytes of an
entry.  Inline widths scan the final packed word for its top non-zero
byte and reread `base + i + 1` bytes of the entry memory; T4 and tail
entries dereference the stored `FallbackKey`. -/
def entryKey (s : HState) : ERef → Option (List Byte)
  | ERef.t0 => some []
  | ERef.t1 i =>
    (s.table1[i]?).bind fun w =>
      (topIdx w).map fun j => toLE w (j + 1)
  | ERef.t2 i =>
    (s.table2[i]?).bind fun w =>
      (topIdx w.2).map fun j => toLE w.1 8 ++ toLE w.2 (j + 1)
  | ERef.t3 i =>
    (s.table3[i]?).bind fun w =>
      (topIdx w.2.2).map fun j =>
        toLE w.1 8 ++ toLE w.2.1 8 ++ toLE w.2.2 (j + 1)
  | ERef.t4 i => (s.table4[i]?).map FallbackKey.bytes
  | ERef.tail i =>
    (s.tails.bind fun ts => ts[i]?).map FallbackKey.bytes

/-- `iter`: entry references in T0, T1, T2, T3, T4, tail order. -/
def iterRefs (s : HState) : List ERef :=
  (if s.table0 then [ERef.t0] else [])
    ++ (List.range s.table1.length).map ERef.t1
    ++ (List.range s.table2.length).map ERef.t2
    ++ (List.range s.table3.length).map ERef.t3
    ++ (List.range s.table4.length).map ERef.t4
    ++ (match s.tails with
        | some ts => (List.range ts.length).map ERef.tail
        | none => [])

/-- `len`: the sum of the five sub-table lengths (the tail array is not
counted). -/
def lenOf (s : HState) : Nat :=
  (if s.table0 then 1 else 0) + s.table1.length + s.table2.length
    + s.table3.length + s.table4.length

/-- `unsize_key_size`: `Some(self.key_size)`. -/
def unsize_key_size (s : HState) : Option Nat := some s.keySize

/-- `clear`: clears every sub-table, drops the tail array, and replaces
the arena by a fresh one.  The source does not touch `key_size`. -/
def clear (s : HState) : HState :=
  { arena := [],
    keySize := s.keySize,
    table0 := false,
    table1 := [],
    table2 := [],
    table3 := [],
    table4 := [],
    tails := none }

/-- `enable_tail_array`: installs an empty tail array if none is present. -/
def enable_tail_array (s : HState) : HState :=
  match s.tails with
  | some _ => s
  | none => { s with tails := some [] }

/-- Fold a sequence of `insert_and_entry` calls over a state, keeping the
final state. -/
def insertSeq (fastHash : List Byte → Nat) (s : HState) :
    List (List Byte) → HState
  | [] => s
  | k :: ks => insertSeq fastHash (insert_and_entry fastHash s k).2 ks

/-- Sum of the byte lengths of the keys of all entries reachable through
`iter`. -/
def storedKeySize (s : HState) : Nat :=
  ((iterRefs s).map fun e => ((entryKey s e).getD []).length).sum

/-- A concrete hash function instance used by concrete evaluations. -/
def zeroHash : List Byte → Nat := fun _ => 0

/-- A concrete key of length 25 with a non-zero last byte, routed to T4
through the length-at-least-25 arm rather than the trailing-NUL guard. -/
def key25 : List Byte := List.replicate 25 97

/-- `classify(k)` as invariant (I1) of the specification words it:
length 0 to T0; a non-empty key with last byte `0x00` to T4; then the
length bands 1..=8, 9..=16, 17..=24 to T1, T2, T3; length at least 25 to
T4. -/
def claimClassify (k : List Byte) : Route :=
  if k.length = 0 then Route.r0
  else if k.getLast? = some 0 then Route.r4
  else if k.length ≤ 8 then Route.r1
  else if k.length ≤ 16 then Route.r2
  else if k.length ≤ 24 then Route.r3
  else Route.r4

/-- The sub-table a reference designates (tail entries are wrapped as the
Table4 variant by the source iterator). -/
def refTable : ERef → Route
  | ERef.t0 => Route.r0
  | ERef.t1 _ => Route.r1
  | ERef.t2 _ => Route.r2
  | ERef.t3 _ => Route.r3
  | ERef.t4 _ => Route.r4
  | ERef.tail _ => Route.r4

/-! ### Packing and unpacking lemmas -/

lemma packLE_cons (b : Byte) (t : List Byte) :
    packLE (b :: t) = b.val + 256 * packLE t := rfl

lemma byteAt_packLE (k : List Byte) : ∀ i, byteAt (packLE k) i = (k.getD i 0).val := by
  induction k with
  | nil =>
    intro i
    simp [packLE, byteAt, List.getD]
  | cons b t ih =>
    intro i
    cases i with
    | zero =>
      simp only [byteAt, packLE_cons, pow_zero, Nat.div_one, List.getD_cons_zero]
      rw [Nat.add_mul_mod_self_left, Nat.mod_eq_of_lt b.isLt]
    | succ i =>
      simp only [byteAt, packLE_cons, List.getD_cons_succ]
      rw [pow_succ, mul_comm (256 ^ i) 256, ← Nat.div_div_eq_div_mul,
        Nat.add_mul_div_left _ _ (by norm_num : (0:Nat) < 256),
        Nat.div_eq_of_lt b.isLt, Nat.zero_add]
      exact ih i

lemma toLE_packLE (k : List Byte) : toLE (packLE k) k.length = k := by
  apply List.ext_getElem
  · simp [toLE]
  · intro i h1 h2
    simp only [toLE, List.getElem_map, List.getElem_range]
    apply Fin.ext
    show byteAt (packLE k) i % 256 = (k[i]).val
    rw [byteAt_packLE, List.getD_eq_getElem k 0 h2,
      Nat.mod_eq_of_lt (k[i]).isLt]

lemma toLE_packLE_len (k : List Byte) {n : Nat} (h : n = k.length) :
    toLE (packLE k) n = k := by
  rw [h]; exact toLE_packLE k

lemma topIdx_eq (w L : Nat) (h1 : 1 ≤ L) (h2 : L ≤ 8)
    (hz : ∀ j, L ≤ j → byteAt w j = 0) (hnz : byteAt w (L - 1) ≠ 0) :
    topIdx w = some (L - 1) := by
  interval_cases L <;>
    simp_all [topIdx, hz 1, hz 2, hz 3, hz 4, hz 5, hz 6, hz 7]

lemma getLast?_val_ne_zero (k : List Byte) (hk : k ≠ [])
    (hL : k.getLast? ≠ some 0) :
    (k.getD (k.length - 1) 0).val ≠ 0 := by
  have hlen : 0 < k.length := List.length_pos.2 hk
  have hget : k.getLast? = some (k[k.length - 1]) := by
    rw [List.getLast?_eq_getElem?, List.getElem?_eq_getElem (by omega)]
  rw [List.getD_eq_getElem k 0 (by omega)]
  intro hv
  apply hL
  rw [hget]
  congr 1
  exact Fin.ext hv

lemma byteAt_packLE_zero_of_ge (k : List Byte) (j : Nat) (h : k.length ≤ j) :
    byteAt (packLE k) j = 0 := by
  rw [byteAt_packLE, List.getD_eq_default _ _ (by omega)]
  rfl

lemma topIdx_packLE (k : List Byte) (hk : k ≠ []) (h8 : k.length ≤ 8)
    (hL : k.getLast? ≠ some 0) :
    topIdx (packLE k) = some (k.length - 1) := by
  have hlen : 1 ≤ k.length := List.length_pos.2 hk
  apply topIdx_eq _ k.length hlen h8
  · intro j hj
    exact byteAt_packLE_zero_of_ge k j hj
  · rw [byteAt_packLE]
    exact getLast?_val_ne_zero k hk hL

/-! ### lookupIdx lemmas -/

lemma lookupIdx_lt {α : Type} (p : α → Bool) :
    ∀ (l : List α) (i : Nat), lookupIdx p l = some i → i < l.length := by
  intro l
  induction l with
  | nil => intro i h; simp [lookupIdx] at h
  | cons a t ih =>
    intro i h
    by_cases hpa : p a
    · simp [lookupIdx, hpa] at h
      simp
      omega
    · simp only [lookupIdx, hpa, if_neg, Bool.false_eq_true, not_false_iff,
        ite_false, Option.map_eq_some'] at h
      obtain ⟨j, hj, rfl⟩ := h
      have := ih j hj
      simp
      omega

lemma lookupIdx_getElem {α : Type} (p : α → Bool) :
    ∀ (l : List α) (i : Nat), lookupIdx p l = some i →
      ∃ a, l[i]? = some a ∧ p a = true := by
  intro l
  induction l with
  | nil => intro i h; simp [lookupIdx] at h
  | cons a t ih =>
    intro i h
    by_cases hpa : p a
    · simp [lookupIdx, hpa] at h
      exact ⟨a, by simp [← h], hpa⟩
    · simp only [lookupIdx, hpa, Bool.false_eq_true, not_false_iff,
        ite_false, Option.map_eq_some'] at h
      obtain ⟨j, hj, rfl⟩ := h
      obtain ⟨b, hb, hpb⟩ := ih j hj
      exact ⟨b, by simpa using hb, hpb⟩

lemma lookupIdx_append_some {α : Type} (p : α → Bool) :
    ∀ (l m : List α) (i : Nat), lookupIdx p l = some i →
      lookupIdx p (l ++ m) = some i := by
  intro l
  induction l with
  | nil => intro m i h; simp [lookupIdx] at h
  | cons a t ih =>
    intro m i h
    by_cases hpa : p a
    · simp_all [lookupIdx]
    · simp only [lookupIdx, hpa, Bool.false_eq_true, not_false_iff,
        ite_false, Option.map_eq_some'] at h
      obtain ⟨j, hj, rfl⟩ := h
      simp only [List.cons_append, lookupIdx, hpa, Bool.false_eq_true,
        not_false_iff, ite_false, List.append_eq, ih m j hj, Option.map_some']

lemma lookupIdx_append_none {α : Type} (p : α → Bool) :
    ∀ (l : List α) (x : α), lookupIdx p l = none → p x = true →
      lookupIdx p (l ++ [x]) = some l.length := by
  intro l
  induction l with
  | nil => intro x _ hx; simp [lookupIdx, hx]
  | cons a t ih =>
    intro x h hx
    by_cases hpa : p a
    · simp [lookupIdx, hpa] at h
    · simp only [lookupIdx, hpa, Bool.false_eq_true, not_false_iff,
        ite_false, Option.map_eq_none'] at h
      simp only [List.cons_append, lookupIdx, hpa, Bool.false_eq_true,
        not_false_iff, ite_false, List.append_eq, ih x h hx, Option.map_some',
        List.length_cons]

/-! ### Routing lemmas -/

lemma routeOf_nil : routeOf [] = Route.r0 := by
  simp [routeOf]

lemma routeOf_eq_r0 {k : List Byte} (h : routeOf k = Route.r0) : k = [] := by
  unfold routeOf at h
  split_ifs at h with h1 h2 h3 h4 h5 <;>
    first
      | exact absurd h (by decide)
      | exact List.length_eq_zero.1 h2

lemma routeOf_eq_r1 {k : List Byte} (h : routeOf k = Route.r1) :
    k ≠ [] ∧ k.length ≤ 8 ∧ k.getLast? ≠ some 0 := by
  unfold routeOf at h
  split_ifs at h with h1 h2 h3 h4 h5 <;> try exact absurd h (by decide)
  refine ⟨?_, h3, h1⟩
  intro he
  subst he
  simp at h2

lemma routeOf_eq_r2 {k : List Byte} (h : routeOf k = Route.r2) :
    9 ≤ k.length ∧ k.length ≤ 16 ∧ k.getLast? ≠ some 0 := by
  unfold routeOf at h
  split_ifs at h with h1 h2 h3 h4 h5 <;> try exact absurd h (by decide)
  exact ⟨by omega, h4, h1⟩

lemma routeOf_eq_r3 {k : List Byte} (h : routeOf k = Route.r3) :
    17 ≤ k.length ∧ k.length ≤ 24 ∧ k.getLast? ≠ some 0 := by
  unfold routeOf at h
  split_ifs at h with h1 h2 h3 h4 h5 <;> try exact absurd h (by decide)
  exact ⟨by omega, h5, h1⟩

lemma routeOf_r4_of {k : List Byte}
    (h : k.getLast? = some 0 ∨ 25 ≤ k.length) : routeOf k = Route.r4 := by
  rcases h with h | h
  · simp [routeOf, h]
  · unfold routeOf
    split_ifs <;> first | rfl | omega

lemma claimClassify_eq (k : List Byte) : claimClassify k = routeOf k := by
  unfold claimClassify routeOf
  split_ifs <;> simp_all [List.length_eq_zero]

/-! ### Key reconstruction per route -/

lemma entryKey_t0 (s : HState) : entryKey s ERef.t0 = some [] := rfl

lemma entryKey_r1 (s : HState) (i : Nat) (k : List Byte)
    (hr : routeOf k = Route.r1) (hget : s.table1[i]? = some (packT1 k)) :
    entryKey s (ERef.t1 i) = some k := by
  obtain ⟨hk, h8, hL⟩ := routeOf_eq_r1 hr
  have hlen : 1 ≤ k.length := List.length_pos.2 hk
  have htop : topIdx (packT1 k) = some (k.length - 1) := topIdx_packLE k hk h8 hL
  simp only [entryKey, hget, Option.some_bind, htop, Option.map_some']
  congr 1
  rw [show k.length - 1 + 1 = k.length from by omega]
  exact toLE_packLE k

lemma entryKey_r2 (s : HState) (i : Nat) (k : List Byte)
    (hr : routeOf k = Route.r2) (hget : s.table2[i]? = some (packT2 k)) :
    entryKey s (ERef.t2 i) = some k := by
  obtain ⟨h9, h16, hL⟩ := routeOf_eq_r2 hr
  have hd : (k.drop 8).length = k.length - 8 := List.length_drop 8 k
  have hdk : k.drop 8 ≠ [] := by
    intro he
    have := congrArg List.length he
    simp at this
    omega
  have hdL : (k.drop 8).getLast? = k.getLast? := by
    rw [List.getLast?_drop, if_neg (by omega)]
  have htop : topIdx (packLE (k.drop 8)) = some (k.length - 9) := by
    have h0 := topIdx_packLE (k.drop 8) hdk (by omega) (by rw [hdL]; exact hL)
    rw [hd] at h0
    rw [h0, Nat.sub_sub]
  have htake : toLE (packLE (k.take 8)) 8 = k.take 8 :=
    toLE_packLE_len _ (by rw [List.length_take]; omega)
  have hdrop : toLE (packLE (k.drop 8)) (k.length - 9 + 1) = k.drop 8 :=
    toLE_packLE_len _ (by rw [hd]; omega)
  simp only [entryKey, hget, Option.some_bind, packT2, htop, Option.map_some']
  rw [htake, hdrop, List.take_append_drop]

lemma entryKey_r3 (s : HState) (i : Nat) (k : List Byte)
    (hr : routeOf k = Route.r3) (hget : s.table3[i]? = some (packT3 k)) :
    entryKey s (ERef.t3 i) = some k := by
  obtain ⟨h17, h24, hL⟩ := routeOf_eq_r3 hr
  have hd : (k.drop 16).length = k.length - 16 := List.length_drop 16 k
  have hdk : k.drop 16 ≠ [] := by
    intro he
    have := congrArg List.length he
    simp at this
    omega
  have hdL : (k.drop 16).getLast? = k.getLast? := by
    rw [List.getLast?_drop, if_neg (by omega)]
  have htop : topIdx (packLE (k.drop 16)) = some (k.length - 17) := by
    have h0 := topIdx_packLE (k.drop 16) hdk (by omega) (by rw [hdL]; exact hL)
    rw [hd] at h0
    rw [h0, Nat.sub_sub]
  have htake1 : toLE (packLE (k.take 8)) 8 = k.take 8 :=
    toLE_packLE_len _ (by rw [List.length_take]; omega)
  have htake2 : toLE (packLE ((k.drop 8).take 8)) 8 = (k.drop 8).take 8 :=
    toLE_packLE_len _ (by rw [List.length_take, List.length_drop]; omega)
  have hdrop : toLE (packLE (k.drop 16)) (k.length - 17 + 1) = k.drop 16 :=
    toLE_packLE_len _ (by rw [hd]; omega)
  simp only [entryKey, hget, Option.some_bind, packT3, htop, Option.map_some']
  rw [htake1, htake2, hdrop]
  rw [show k.drop 16 = (k.drop 8).drop 8 from by rw [List.drop_drop]]
  rw [List.append_assoc, List.take_append_drop, List.take_append_drop]

lemma entryKey_r4 (s : HState) (i : Nat) (f : FallbackKey) (k : List Byte)
    (hget : s.table4[i]? = some f) (hb : f.bytes = k) :
    entryKey s (ERef.t4 i) = some k := by
  simp [entryKey, hget, hb]

/-! ### iterRefs membership -/

lemma mem_iterRefs_t0 (s : HState) (h : s.table0 = true) :
    ERef.t0 ∈ iterRefs s := by
  simp [iterRefs, h]

lemma mem_iterRefs_t1 (s : HState) (i : Nat) (h : i < s.table1.length) :
    ERef.t1 i ∈ iterRefs s := by
  simp [iterRefs, List.mem_append, List.mem_map, List.mem_range, h]

lemma mem_iterRefs_t2 (s : HState) (i : Nat) (h : i < s.table2.length) :
    ERef.t2 i ∈ iterRefs s := by
  simp [iterRefs, List.mem_append, List.mem_map, List.mem_range, h]

lemma mem_iterRefs_t3 (s : HState) (i : Nat) (h : i < s.table3.length) :
    ERef.t3 i ∈ iterRefs s := by
  simp [iterRefs, List.mem_append, List.mem_map, List.mem_range, h]

lemma mem_iterRefs_t4 (s : HState) (i : Nat) (h : i < s.table4.length) :
    ERef.t4 i ∈ iterRefs s := by
  simp [iterRefs, List.mem_append, List.mem_map, List.mem_range, h]

lemma mem_iterRefs_tail (s : HState) (ts : List FallbackKey) (i : Nat)
    (h : s.tails = some ts) (hi : i < ts.length) :
    ERef.tail i ∈ iterRefs s := by
  simp [iterRefs, h, List.mem_append, List.mem_map, List.mem_range, hi]

/-! ### Insert and entry interplay -/

lemma insert_eq_main (f : List Byte → Nat) (s : HState) (k : List Byte)
    (h : s.tails = none) :
    insert_and_entry f s k = insertMain f s k := by
  simp only [insert_and_entry, h]

lemma entry_insertMain (f : List Byte → Nat) (s : HState) (k : List Byte) :
    entry f (insertMain f s k).2 k = some (resRef (insertMain f s k).1) := by
  cases hr : routeOf k with
  | r0 =>
    by_cases h0 : s.table0
    · simp [insertMain, entry, hr, h0, resRef]
    · simp [insertMain, entry, hr, h0, resRef]
  | r1 =>
    cases hl : lookupIdx (fun w => decide (w = packT1 k)) s.table1 with
    | some i => simp [insertMain, entry, hr, hl, resRef]
    | none =>
      simp only [insertMain, entry, hr, hl]
      rw [lookupIdx_append_none _ _ _ hl (by simp)]
      simp [resRef]
  | r2 =>
    cases hl : lookupIdx (fun w => decide (w = packT2 k)) s.table2 with
    | some i => simp [insertMain, entry, hr, hl, resRef]
    | none =>
      simp only [insertMain, entry, hr, hl]
      rw [lookupIdx_append_none _ _ _ hl (by simp)]
      simp [resRef]
  | r3 =>
    cases hl : lookupIdx (fun w => decide (w = packT3 k)) s.table3 with
    | some i => simp [insertMain, entry, hr, hl, resRef]
    | none =>
      simp only [insertMain, entry, hr, hl]
      rw [lookupIdx_append_none _ _ _ hl (by simp)]
      simp [resRef]
  | r4 =>
    cases hl : lookupIdx (fun x => fkEq (FallbackKey.new f k) x) s.table4 with
    | some i => simp [insertMain, entry, hr, hl, resRef]
    | none =>
      simp only [insertMain, entry, hr, hl]
      rw [lookupIdx_append_none _ _ _ hl
        (by simp [fkEq, FallbackKey.new, FallbackKey.newWithHash])]
      simp [resRef]

lemma entryKey_insertMain (f : List Byte → Nat) (s : HState) (k : List Byte) :
    entryKey (insertMain f s k).2 (resRef (insertMain f s k).1) = some k := by
  cases hr : routeOf k with
  | r0 =>
    have hk := routeOf_eq_r0 hr
    subst hk
    by_cases h0 : s.table0 <;>
      simp [insertMain, hr, h0, resRef, entryKey]
  | r1 =>
    cases hl : lookupIdx (fun w => decide (w = packT1 k)) s.table1 with
    | some i =>
      obtain ⟨a, ha, hpa⟩ := lookupIdx_getElem _ _ _ hl
      have ha2 : s.table1[i]? = some (packT1 k) := by
        have hq : a = packT1 k := by simpa using hpa
        rw [← hq]
        exact ha
      simp only [insertMain, hr, hl, resRef]
      exact entryKey_r1 s i k hr ha2
    | none =>
      simp only [insertMain, hr, hl, resRef]
      apply entryKey_r1 _ _ _ hr
      simp [List.getElem?_concat_length]
  | r2 =>
    cases hl : lookupIdx (fun w => decide (w = packT2 k)) s.table2 with
    | some i =>
      obtain ⟨a, ha, hpa⟩ := lookupIdx_getElem _ _ _ hl
      have ha2 : s.table2[i]? = some (packT2 k) := by
        have hq : a = packT2 k := by simpa using hpa
        rw [← hq]
        exact ha
      simp only [insertMain, hr, hl, resRef]
      exact entryKey_r2 s i k hr ha2
    | none =>
      simp only [insertMain, hr, hl, resRef]
      apply entryKey_r2 _ _ _ hr
      simp [List.getElem?_concat_length]
  | r3 =>
    cases hl : lookupIdx (fun w => decide (w = packT3 k)) s.table3 with
    | some i =>
      obtain ⟨a, ha, hpa⟩ := lookupIdx_getElem _ _ _ hl
      have ha2 : s.table3[i]? = some (packT3 k) := by
        have hq : a = packT3 k := by simpa using hpa
        rw [← hq]
        exact ha
      simp only [insertMain, hr, hl, resRef]
      exact entryKey_r3 s i k hr ha2
    | none =>
      simp only [insertMain, hr, hl, resRef]
      apply entryKey_r3 _ _ _ hr
      simp [List.getElem?_concat_length]
  | r4 =>
    cases hl : lookupIdx (fun x => fkEq (FallbackKey.new f k) x) s.table4 with
    | some i =>
      obtain ⟨a, ha, hpa⟩ := lookupIdx_getElem _ _ _ hl
      have hb : a.bytes = k := by
        simp [fkEq, FallbackKey.new] at hpa
        exact hpa.2.symm
      simp only [insertMain, hr, hl, resRef]
      exact entryKey_r4 s i a k ha hb
    | none =>
      simp only [insertMain, hr, hl, resRef]
      apply entryKey_r4 _ _
        (FallbackKey.newWithHash k (FallbackKey.new f k).hash (PtrLoc.arena s.arena.length)) k
      · simp [List.getElem?_concat_length]
      · rfl

lemma resRef_mem_insertMain (f : List Byte → Nat) (s : HState) (k : List Byte) :
    resRef (insertMain f s k).1 ∈ iterRefs (insertMain f s k).2 := by
  cases hr : routeOf k with
  | r0 =>
    by_cases h0 : s.table0
    · simp only [insertMain, hr, h0, if_true, resRef]
      exact mem_iterRefs_t0 _ h0
    · simp only [insertMain, hr, h0, if_false, Bool.false_eq_true, resRef]
      exact mem_iterRefs_t0 _ rfl
  | r1 =>
    cases hl : lookupIdx (fun w => decide (w = packT1 k)) s.table1 with
    | some i =>
      simp only [insertMain, hr, hl, resRef]
      exact mem_iterRefs_t1 _ _ (lookupIdx_lt _ _ _ hl)
    | none =>
      simp only [insertMain, hr, hl, resRef]
      exact mem_iterRefs_t1 _ _ (by simp)
  | r2 =>
    cases hl : lookupIdx (fun w => decide (w = packT2 k)) s.table2 with
    | some i =>
      simp only [insertMain, hr, hl, resRef]
      exact mem_iterRefs_t2 _ _ (lookupIdx_lt _ _ _ hl)
    | none =>
      simp only [insertMain, hr, hl, resRef]
      exact mem_iterRefs_t2 _ _ (by simp)
  | r3 =>
    cases hl : lookupIdx (fun w => decide (w = packT3 k)) s.table3 with
    | some i =>
      simp only [insertMain, hr, hl, resRef]
      exact mem_iterRefs_t3 _ _ (lookupIdx_lt _ _ _ hl)
    | none =>
      simp only [insertMain, hr, hl, resRef]
      exact mem_iterRefs_t3 _ _ (by simp)
  | r4 =>
    cases hl : lookupIdx (fun x => fkEq (FallbackKey.new f k) x) s.table4 with
    | some i =>
      simp only [insertMain, hr, hl, resRef]
      exact mem_iterRefs_t4 _ _ (lookupIdx_lt _ _ _ hl)
    | none =>
      simp only [insertMain, hr, hl, resRef]
      exact mem_iterRefs_t4 _ _ (by simp)

lemma insertMain_err_state (f : List Byte → Nat) (s : HState) (k : List Byte)
    (e : ERef) (h : (insertMain f s k).1 = InsRes.err e) :
    (insertMain f s k).2 = s := by
  cases hr : routeOf k with
  | r0 =>
    by_cases h0 : s.table0
    · simp [insertMain, hr, h0]
    · simp [insertMain, hr, h0] at h
  | r1 =>
    cases hl : lookupIdx (fun w => decide (w = packT1 k)) s.table1 with
    | some i => simp [insertMain, hr, hl]
    | none => simp [insertMain, hr, hl] at h
  | r2 =>
    cases hl : lookupIdx (fun w => decide (w = packT2 k)) s.table2 with
    | some i => simp [insertMain, hr, hl]
    | none => simp [insertMain, hr, hl] at h
  | r3 =>
    cases hl : lookupIdx (fun w => decide (w = packT3 k)) s.table3 with
    | some i => simp [insertMain, hr, hl]
    | none => simp [insertMain, hr, hl] at h
  | r4 =>
    cases hl : lookupIdx (fun x => fkEq (FallbackKey.new f k) x) s.table4 with
    | some i => simp [insertMain, hr, hl]
    | none => simp [insertMain, hr, hl] at h

lemma insertMain_ok_of_entry_none (f : List Byte → Nat) (s : HState)
    (k : List Byte) (h : entry f s k = none) :
    ∃ e, (insertMain f s k).1 = InsRes.ok e := by
  cases hr : routeOf k with
  | r0 =>
    simp only [entry, hr] at h
    by_cases h0 : s.table0
    · simp [h0] at h
    · exact ⟨ERef.t0, by simp [insertMain, hr, h0]⟩
  | r1 =>
    simp only [entry, hr, Option.map_eq_none'] at h
    exact ⟨ERef.t1 s.table1.length, by simp [insertMain, hr, h]⟩
  | r2 =>
    simp only [entry, hr, Option.map_eq_none'] at h
    exact ⟨ERef.t2 s.table2.length, by simp [insertMain, hr, h]⟩
  | r3 =>
    simp only [entry, hr, Option.map_eq_none'] at h
    exact ⟨ERef.t3 s.table3.length, by simp [insertMain, hr, h]⟩
  | r4 =>
    simp only [entry, hr, Option.map_eq_none'] at h
    exact ⟨ERef.t4 s.table4.length, by simp [insertMain, hr, h]⟩

lemma insertMain_err_of_entry_some (f : List Byte → Nat) (s : HState)
    (k : List Byte) (e : ERef) (h : entry f s k = some e) :
    insertMain f s k = (InsRes.err e, s) := by
  cases hr : routeOf k with
  | r0 =>
    simp only [entry, hr] at h
    by_cases h0 : s.table0
    · simp only [h0, if_true, Option.some_inj] at h
      simp [insertMain, hr, h0, h]
    · simp [h0] at h
  | r1 =>
    simp only [entry, hr, Option.map_eq_some'] at h
    obtain ⟨i, hi, he⟩ := h
    simp [insertMain, hr, hi, he]
  | r2 =>
    simp only [entry, hr, Option.map_eq_some'] at h
    obtain ⟨i, hi, he⟩ := h
    simp [insertMain, hr, hi, he]
  | r3 =>
    simp only [entry, hr, Option.map_eq_some'] at h
    obtain ⟨i, hi, he⟩ := h
    simp [insertMain, hr, hi, he]
  | r4 =>
    simp only [entry, hr, Option.map_eq_some'] at h
    obtain ⟨i, hi, he⟩ := h
    simp [insertMain, hr, hi, he]

lemma insertMain_extends (f : List Byte → Nat) (s : HState) (k : List Byte) :
    (s.table0 = true → (insertMain f s k).2.table0 = true) ∧
    (∃ a, (insertMain f s k).2.table1 = s.table1 ++ a) ∧
    (∃ a, (insertMain f s k).2.table2 = s.table2 ++ a) ∧
    (∃ a, (insertMain f s k).2.table3 = s.table3 ++ a) ∧
    (∃ a, (insertMain f s k).2.table4 = s.table4 ++ a) ∧
    (insertMain f s k).2.tails = s.tails := by
  have step : ∀ r : InsRes × HState,
      r = insertMain f s k →
      (s.table0 = true → r.2.table0 = true) ∧
      (∃ a, r.2.table1 = s.table1 ++ a) ∧
      (∃ a, r.2.table2 = s.table2 ++ a) ∧
      (∃ a, r.2.table3 = s.table3 ++ a) ∧
      (∃ a, r.2.table4 = s.table4 ++ a) ∧
      r.2.tails = s.tails := by
    intro r hrq
    cases hr : routeOf k with
    | r0 =>
      by_cases h0 : s.table0
      · have hs : r.2 = s := by rw [hrq]; simp [insertMain, hr, h0]
        rw [hs]
        exact ⟨fun h => h, ⟨[], by simp⟩, ⟨[], by simp⟩, ⟨[], by simp⟩,
          ⟨[], by simp⟩, rfl⟩
      · have hs : r.2 = { s with table0 := true } := by
          rw [hrq]; simp [insertMain, hr, h0]
        rw [hs]
        exact ⟨fun _ => rfl, ⟨[], by simp⟩, ⟨[], by simp⟩, ⟨[], by simp⟩,
          ⟨[], by simp⟩, rfl⟩
    | r1 =>
      cases hl : lookupIdx (fun w => decide (w = packT1 k)) s.table1 with
      | some i =>
        have hs : r.2 = s := by rw [hrq]; simp [insertMain, hr, hl]
        rw [hs]
        exact ⟨fun h => h, ⟨[], by simp⟩, ⟨[], by simp⟩, ⟨[], by simp⟩,
          ⟨[], by simp⟩, rfl⟩
      | none =>
        have hs : r.2 =
            { s with
                table1 := s.table1 ++ [packT1 k],
                keySize := s.keySize + k.length } := by
          rw [hrq]; simp [insertMain, hr, hl]
        rw [hs]
        exact ⟨fun h => h, ⟨[packT1 k], rfl⟩, ⟨[], by simp⟩, ⟨[], by simp⟩,
          ⟨[], by simp⟩, rfl⟩
    | r2 =>
      cases hl : lookupIdx (fun w => decide (w = packT2 k)) s.table2 with
      | some i =>
        have hs : r.2 = s := by rw [hrq]; simp [insertMain, hr, hl]
        rw [hs]
        exact ⟨fun h => h, ⟨[], by simp⟩, ⟨[], by simp⟩, ⟨[], by simp⟩,
          ⟨[], by simp⟩, rfl⟩
      | none =>
        have hs : r.2 =
            { s with
                table2 := s.table2 ++ [packT2 k],
                keySize := s.keySize + k.length } := by
          rw [hrq]; simp [insertMain, hr, hl]
        rw [hs]
        exact ⟨fun h => h, ⟨[], by simp⟩, ⟨[packT2 k], rfl⟩, ⟨[], by simp⟩,
          ⟨[], by simp⟩, rfl⟩
    | r3 =>
      cases hl : lookupIdx (fun w => decide (w = packT3 k)) s.table3 with
      | some i =>
        have hs : r.2 = s := by rw [hrq]; simp [insertMain, hr, hl]
        rw [hs]
        exact ⟨fun h => h, ⟨[], by simp⟩, ⟨[], by simp⟩, ⟨[], by simp⟩,
          ⟨[], by simp⟩, rfl⟩
      | none =>
        have hs : r.2 =
            { s with
                table3 := s.table3 ++ [packT3 k],
                keySize := s.keySize + k.length } := by
          rw [hrq]; simp [insertMain, hr, hl]
        rw [hs]
        exact ⟨fun h => h, ⟨[], by simp⟩, ⟨[], by simp⟩, ⟨[packT3 k], rfl⟩,
          ⟨[], by simp⟩, rfl⟩
    | r4 =>
      cases hl : lookupIdx (fun x => fkEq (FallbackKey.new f k) x) s.table4 with
      | some i =>
        have hs : r.2 = s := by rw [hrq]; simp [insertMain, hr, hl]
        rw [hs]
        exact ⟨fun h => h, ⟨[], by simp⟩, ⟨[], by simp⟩, ⟨[], by simp⟩,
          ⟨[], by simp⟩, rfl⟩
      | none =>
        have hs : r.2 =
            { s with
                arena := s.arena ++ [k],
                table4 := s.table4 ++ [FallbackKey.newWithHash k
                  (FallbackKey.new f k).hash (PtrLoc.arena s.arena.length)],
                keySize := s.keySize + k.length } := by
          rw [hrq]; simp [insertMain, hr, hl]
        rw [hs]
        exact ⟨fun h => h, ⟨[], by simp⟩, ⟨[], by simp⟩, ⟨[], by simp⟩,
          ⟨[FallbackKey.newWithHash k (FallbackKey.new f k).hash
            (PtrLoc.arena s.arena.length)], rfl⟩, rfl⟩
  exact step _ rfl

lemma entry_extend (f : List Byte → Nat) (s1 s2 : HState) (k : List Byte)
    (e : ERef) (h : entry f s1 k = some e)
    (h0 : s1.table0 = true → s2.table0 = true)
    (h1 : ∃ a, s2.table1 = s1.table1 ++ a)
    (h2 : ∃ a, s2.table2 = s1.table2 ++ a)
    (h3 : ∃ a, s2.table3 = s1.table3 ++ a)
    (h4 : ∃ a, s2.table4 = s1.table4 ++ a) :
    entry f s2 k = some e := by
  cases hr : routeOf k with
  | r0 =>
    simp only [entry, hr] at h ⊢
    by_cases ht : s1.table0
    · simp only [ht, if_true, Option.some_inj] at h
      simp [h0 ht, h]
    · simp [ht] at h
  | r1 =>
    obtain ⟨a, ha⟩ := h1
    simp only [entry, hr] at h ⊢
    obtain ⟨i, hi, he⟩ := Option.map_eq_some'.1 h
    rw [ha, lookupIdx_append_some _ _ _ _ hi, Option.map_some', he]
  | r2 =>
    obtain ⟨a, ha⟩ := h2
    simp only [entry, hr] at h ⊢
    obtain ⟨i, hi, he⟩ := Option.map_eq_some'.1 h
    rw [ha, lookupIdx_append_some _ _ _ _ hi, Option.map_some', he]
  | r3 =>
    obtain ⟨a, ha⟩ := h3
    simp only [entry, hr] at h ⊢
    obtain ⟨i, hi, he⟩ := Option.map_eq_some'.1 h
    rw [ha, lookupIdx_append_some _ _ _ _ hi, Option.map_some', he]
  | r4 =>
    obtain ⟨a, ha⟩ := h4
    simp only [entry, hr] at h ⊢
    obtain ⟨i, hi, he⟩ := Option.map_eq_some'.1 h
    rw [ha, lookupIdx_append_some _ _ _ _ hi, Option.map_some', he]

lemma entry_after_insert (f : List Byte → Nat) (s : HState)
    (k2 k : List Byte) (e : ERef) (h : entry f s k = some e) :
    entry f (insert_and_entry f s k2).2 k = some e := by
  have hmain : ∀ s' : HState, s' = (insertMain f s k2).2 → entry f s' k = some e := by
    intro s' hs
    subst hs
    obtain ⟨x0, x1, x2, x3, x4, _⟩ := insertMain_extends f s k2
    exact entry_extend f s _ k e h x0 x1 x2 x3 x4
  cases hts : s.tails with
  | none =>
    simp only [insert_and_entry, hts]
    exact hmain _ rfl
  | some ts =>
    by_cases hk : k2 = []
    · simp only [insert_and_entry, hts, if_pos hk]
      exact hmain _ rfl
    · simp only [insert_and_entry, hts, if_neg hk]
      exact entry_extend f s _ k e h (fun hx => hx) ⟨[], by simp⟩ ⟨[], by simp⟩
        ⟨[], by simp⟩ ⟨[], by simp⟩

lemma entry_insertSeq (f : List Byte → Nat) :
    ∀ (ks : List (List Byte)) (s : HState) (k : List Byte) (e : ERef),
      entry f s k = some e → entry f (insertSeq f s ks) k = some e := by
  intro ks
  induction ks with
  | nil => intro s k e h; exact h
  | cons k2 ks ih =>
    intro s k e h
    exact ih _ _ _ (entry_after_insert f s k2 k e h)

lemma insert_tails_none (f : List Byte → Nat) (s : HState) (k : List Byte)
    (h : s.tails = none) : (insert_and_entry f s k).2.tails = none := by
  rw [insert_eq_main f s k h]
  exact ((insertMain_extends f s k).2.2.2.2.2).trans h

lemma insertSeq_tails_none (f : List Byte → Nat) :
    ∀ (ks : List (List Byte)) (s : HState), s.tails = none →
      (insertSeq f s ks).tails = none := by
  intro ks
  induction ks with
  | nil => intro s h; exact h
  | cons k2 ks ih =>
    intro s h
    exact ih _ (insert_tails_none f s k2 h)

lemma entry_mut_eq_entry (f : List Byte → Nat) (s : HState) (k : List Byte) :
    entry_mut f s k = entry f s k := rfl

lemma entry_eq_of_tables (f : List Byte → Nat) (s1 s2 : HState) (k : List Byte)
    (hk : k ≠ [])
    (h1 : s1.table1 = s2.table1) (h2 : s1.table2 = s2.table2)
    (h3 : s1.table3 = s2.table3) (h4 : s1.table4 = s2.table4) :
    entry f s1 k = entry f s2 k := by
  cases hr : routeOf k with
  | r0 => exact absurd (routeOf_eq_r0 hr) hk
  | r1 => simp only [entry, hr, h1]
  | r2 => simp only [entry, hr, h2]
  | r3 => simp only [entry, hr, h3]
  | r4 => simp only [entry, hr, h4]

lemma insert_tailMode (f : List Byte → Nat) (s : HState) (k : List Byte)
    (h : s.tails.isSome = true) :
    (insert_and_entry f s k).2.table1 = s.table1 ∧
    (insert_and_entry f s k).2.table2 = s.table2 ∧
    (insert_and_entry f s k).2.table3 = s.table3 ∧
    (insert_and_entry f s k).2.table4 = s.table4 ∧
    (insert_and_entry f s k).2.tails.isSome = true := by
  cases hts : s.tails with
  | none => rw [hts] at h; simp at h
  | some ts =>
    by_cases hk : k = []
    · subst hk
      have hr : routeOf [] = Route.r0 := routeOf_nil
      simp only [insert_and_entry, hts, if_pos rfl]
      by_cases h0 : s.table0 <;>
        simp [insertMain, hr, h0, hts]
    · simp [insert_and_entry, hts, hk]

lemma insertSeq_tailMode (f : List Byte → Nat) :
    ∀ (ks : List (List Byte)) (s : HState), s.tails.isSome = true →
      (insertSeq f s ks).table1 = s.table1 ∧
      (insertSeq f s ks).table2 = s.table2 ∧
      (insertSeq f s ks).table3 = s.table3 ∧
      (insertSeq f s ks).table4 = s.table4 ∧
      (insertSeq f s ks).tails.isSome = true := by
  intro ks
  induction ks with
  | nil => intro s h; exact ⟨rfl, rfl, rfl, rfl, h⟩
  | cons k2 ks ih =>
    intro s h
    obtain ⟨p1, p2, p3, p4, p5⟩ := insert_tailMode f s k2 h
    obtain ⟨q1, q2, q3, q4, q5⟩ := ih (insert_and_entry f s k2).2 p5
    exact ⟨q1.trans p1, q2.trans p2, q3.trans p3, q4.trans p4, q5⟩

/-! ### Claim theorems -/

/-- Claim C1: with the tail array disabled, for every key inserted via
`insert_and_entry` there is an entry reachable via `entry`/`get` and
via `iter` whose `key()` reconstructs exactly the inserted bytes; in
particular inline length recovery by scanning the final packed word is
the identity on the key.  (The last-byte side condition of the claim is
subsumed: a trailing-NUL key is routed to T4, so every key round-trips.) -/
theorem claim_C1 (f : List Byte → Nat) (s : HState) (k : List Byte)
    (htail : s.tails = none) :
    ∃ e : ERef,
      entry f (insert_and_entry f s k).2 k = some e ∧
      get f (insert_and_entry f s k).2 k = some e ∧
      e ∈ iterRefs (insert_and_entry f s k).2 ∧
      entryKey (insert_and_entry f s k).2 e = some k := by
  rw [insert_eq_main f s k htail]
  exact ⟨resRef (insertMain f s k).1, entry_insertMain f s k,
    entry_insertMain f s k, resRef_mem_insertMain f s k,
    entryKey_insertMain f s k⟩

theorem claim_C1_witness :
    emptyTable.tails = none ∧
    (∃ e : ERef,
      entry zeroHash (insert_and_entry zeroHash emptyTable [97]).2 [97] = some e ∧
      get zeroHash (insert_and_entry zeroHash emptyTable [97]).2 [97] = some e ∧
      e ∈ iterRefs (insert_and_entry zeroHash emptyTable [97]).2 ∧
      entryKey (insert_and_entry zeroHash emptyTable [97]).2 e = some [97]) :=
  ⟨rfl, claim_C1 zeroHash emptyTable [97] rfl⟩

/-- Claim C2: with the tail array disabled, `insert_and_entry` routes
every key to exactly the sub-table given by the deterministic
classification (empty to T0, trailing NUL to T4, length bands 1-8 / 9-16
/ 17-24 to T1/T2/T3, length at least 25 to T4), and `entry` probes the
same sub-table. -/
theorem claim_C2 (f : List Byte → Nat) (s : HState) (k : List Byte)
    (htail : s.tails = none) :
    refTable (resRef (insert_and_entry f s k).1) = claimClassify k ∧
    ∀ e, entry f s k = some e → refTable e = claimClassify k := by
  rw [insert_eq_main f s k htail, claimClassify_eq]
  constructor
  · cases hr : routeOf k with
    | r0 =>
      by_cases h0 : s.table0 <;> simp [insertMain, hr, h0, resRef, refTable]
    | r1 =>
      cases hl : lookupIdx (fun w => decide (w = packT1 k)) s.table1 <;>
        simp [insertMain, hr, hl, resRef, refTable]
    | r2 =>
      cases hl : lookupIdx (fun w => decide (w = packT2 k)) s.table2 <;>
        simp [insertMain, hr, hl, resRef, refTable]
    | r3 =>
      cases hl : lookupIdx (fun w => decide (w = packT3 k)) s.table3 <;>
        simp [insertMain, hr, hl, resRef, refTable]
    | r4 =>
      cases hl : lookupIdx (fun x => fkEq (FallbackKey.new f k) x) s.table4 <;>
        simp [insertMain, hr, hl, resRef, refTable]
  · intro e he
    cases hr : routeOf k with
    | r0 =>
      simp only [entry, hr] at he
      by_cases h0 : s.table0
      · simp only [h0, if_true, Option.some_inj] at he
        simp [← he, refTable]
      · simp [h0] at he
    | r1 =>
      simp only [entry, hr, Option.map_eq_some'] at he
      obtain ⟨i, _, he⟩ := he
      simp [← he, refTable]
    | r2 =>
      simp only [entry, hr, Option.map_eq_some'] at he
      obtain ⟨i, _, he⟩ := he
      simp [← he, refTable]
    | r3 =>
      simp only [entry, hr, Option.map_eq_some'] at he
      obtain ⟨i, _, he⟩ := he
      simp [← he, refTable]
    | r4 =>
      simp only [entry, hr, Option.map_eq_some'] at he
      obtain ⟨i, _, he⟩ := he
      simp [← he, refTable]

theorem claim_C2_witness :
    emptyTable.tails = none ∧
    (refTable (resRef (insert_and_entry zeroHash emptyTable [97, 98, 0]).1)
        = claimClassify [97, 98, 0] ∧
      ∀ e, entry zeroHash emptyTable [97, 98, 0] = some e →
        refTable e = claimClassify [97, 98, 0]) :=
  ⟨rfl, claim_C2 zeroHash emptyTable [97, 98, 0] rfl⟩

/-- Claim C3 counterexample: `clear` does not reset `key_size`.  After
inserting the one-byte key `[1]` into an empty table (`key_size = 1`)
and calling `clear`, `key_size` is still 1, not 0. -/
theorem claim_C3_cex :
    (clear (insert_and_entry zeroHash emptyTable [1]).2).keySize ≠ 0 := by
  decide

/-- Claim C3 (amended): after `clear()` the table is empty (`len() = 0`,
`iter()` yields nothing), the tail array is dropped and the arena is
replaced by a fresh empty one, but `key_size` keeps its pre-clear value
(the source never resets it), so `unsize_key_size()` returns the stale
sum. -/
theorem claim_C3_amended (s : HState) :
    lenOf (clear s) = 0 ∧ iterRefs (clear s) = [] ∧ (clear s).arena = [] ∧
    (clear s).tails = none ∧ (clear s).keySize = s.keySize ∧
    unsize_key_size (clear s) = some s.keySize :=
  ⟨rfl, rfl, rfl, rfl, rfl, rfl⟩

/-- Claim C4: the claim fails on the code.  For the trailing-NUL key
`[0]` with the matching hash, `insert_and_entry_with_hash` returns the
same result arm as `insert_and_entry` but leaves `key_size = 0` where
`insert_and_entry` sets it to 1, so the observable states differ.  The
divergence is confined to the trailing-NUL arm: for a fresh 25-byte key
(non-zero last byte) both functions produce identical states, including
the `key_size += key.len()` of the source's length-at-least-25 arm. -/
theorem claim_C4_bug :
    (insert_and_entry_with_hash zeroHash emptyTable [0] (zeroHash [0])).1
      = (insert_and_entry zeroHash emptyTable [0]).1 ∧
    (insert_and_entry_with_hash zeroHash emptyTable [0] (zeroHash [0])).2.keySize = 0 ∧
    (insert_and_entry zeroHash emptyTable [0]).2.keySize = 1 ∧
    (insert_and_entry_with_hash zeroHash emptyTable [0] (zeroHash [0])).2
      ≠ (insert_and_entry zeroHash emptyTable [0]).2 ∧
    insert_and_entry_with_hash zeroHash emptyTable key25 (zeroHash key25)
      = insert_and_entry zeroHash emptyTable key25 := by
  decide

/-- Claim C5: the claim fails on the code.  Inserting the trailing-NUL
key `[0]` through `insert_and_entry_with_hash` stores one key of length
1 (the table holds one entry of key size one) while `key_size` stays 0:
the trailing-NUL arm lacks the `key_size += key.len()` that the
length-at-least-25 arm performs (a no-op copy of the line sits in the
empty-key arm).  For a fresh 25-byte key with a non-zero last byte the
invariant holds: `key_size = 25` equals the stored key-length sum. -/
theorem claim_C5_bug :
    (insert_and_entry_with_hash zeroHash emptyTable [0] (zeroHash [0])).2.keySize = 0 ∧
    storedKeySize (insert_and_entry_with_hash zeroHash emptyTable [0] (zeroHash [0])).2 = 1 ∧
    lenOf (insert_and_entry_with_hash zeroHash emptyTable [0] (zeroHash [0])).2 = 1 ∧
    (insert_and_entry_with_hash zeroHash emptyTable key25 (zeroHash key25)).2.keySize = 25 ∧
    storedKeySize
      (insert_and_entry_with_hash zeroHash emptyTable key25 (zeroHash key25)).2 = 25 := by
  decide

/-- Claim C6: with the tail array disabled, the first insert of a key
not yet present returns `Ok` with some slot `e`; after any further
sequence of inserts, inserting a byte-equal key returns `Err` carrying
the same slot `e` and leaves the whole table state unchanged. -/
theorem claim_C6 (f : List Byte → Nat) (s : HState) (k : List Byte)
    (ks : List (List Byte)) (htail : s.tails = none)
    (hnew : entry f s k = none) :
    ∃ e : ERef,
      (insert_and_entry f s k).1 = InsRes.ok e ∧
      (insert_and_entry f (insertSeq f (insert_and_entry f s k).2 ks) k).1
        = InsRes.err e ∧
      (insert_and_entry f (insertSeq f (insert_and_entry f s k).2 ks) k).2
        = insertSeq f (insert_and_entry f s k).2 ks := by
  rw [insert_eq_main f s k htail]
  obtain ⟨e, he⟩ := insertMain_ok_of_entry_none f s k hnew
  have h1 : entry f (insertMain f s k).2 k = some e := by
    have h0 := entry_insertMain f s k
    rw [he] at h0
    simpa [resRef] using h0
  have htails1 : (insertMain f s k).2.tails = none :=
    ((insertMain_extends f s k).2.2.2.2.2).trans htail
  have htails2 : (insertSeq f (insertMain f s k).2 ks).tails = none :=
    insertSeq_tails_none f ks _ htails1
  have h2 : entry f (insertSeq f (insertMain f s k).2 ks) k = some e :=
    entry_insertSeq f ks _ k e h1
  have h3 := insertMain_err_of_entry_some f _ k e h2
  refine ⟨e, he, ?_, ?_⟩
  · rw [insert_eq_main f _ k htails2, h3]
  · rw [insert_eq_main f _ k htails2, h3]

theorem claim_C6_witness :
    emptyTable.tails = none ∧ entry zeroHash emptyTable [97] = none ∧
    (∃ e : ERef,
      (insert_and_entry zeroHash emptyTable [97]).1 = InsRes.ok e ∧
      (insert_and_entry zeroHash
        (insertSeq zeroHash (insert_and_entry zeroHash emptyTable [97]).2
          [[98], [97, 0]]) [97]).1 = InsRes.err e ∧
      (insert_and_entry zeroHash
        (insertSeq zeroHash (insert_and_entry zeroHash emptyTable [97]).2
          [[98], [97, 0]]) [97]).2
        = insertSeq zeroHash (insert_and_entry zeroHash emptyTable [97]).2
            [[98], [97, 0]]) :=
  ⟨rfl, by decide, claim_C6 zeroHash emptyTable [97] [[98], [97, 0]] rfl (by decide)⟩

/-- Claim C7: with the tail array enabled, every insert of a non-empty
key appends a fresh record to the tail list and returns `Ok`; repeated
inserts of the same key yield distinct tail entries (never `Err`) and
iteration visits all of them, while the empty key still goes to T0 and
is deduplicated there. -/
theorem claim_C7 (f : List Byte → Nat) (s : HState) (ts : List FallbackKey)
    (k : List Byte) (htail : s.tails = some ts) (hk : k ≠ []) :
    (insert_and_entry f s k).1 = InsRes.ok (ERef.tail ts.length) ∧
    (insert_and_entry f s k).2.tails = some (ts ++ [FallbackKey.new f k]) ∧
    (insert_and_entry f (insert_and_entry f s k).2 k).1
      = InsRes.ok (ERef.tail (ts.length + 1)) ∧
    ERef.tail ts.length ≠ ERef.tail (ts.length + 1) ∧
    ERef.tail ts.length
      ∈ iterRefs (insert_and_entry f (insert_and_entry f s k).2 k).2 ∧
    ERef.tail (ts.length + 1)
      ∈ iterRefs (insert_and_entry f (insert_and_entry f s k).2 k).2 ∧
    (insert_and_entry f s []).1
      = (if s.table0 then InsRes.err ERef.t0 else InsRes.ok ERef.t0) := by
  have h1 : insert_and_entry f s k =
      (InsRes.ok (ERef.tail ts.length),
        { s with tails := some (ts ++ [FallbackKey.new f k]) }) := by
    simp [insert_and_entry, htail, hk]
  have h2 : insert_and_entry f (insert_and_entry f s k).2 k =
      (InsRes.ok (ERef.tail (ts.length + 1)),
        { s with tails := some (ts ++ [FallbackKey.new f k]
            ++ [FallbackKey.new f k]) }) := by
    rw [h1]
    simp [insert_and_entry, hk]
  have hempty : (insert_and_entry f s []).1
      = (if s.table0 then InsRes.err ERef.t0 else InsRes.ok ERef.t0) := by
    have h0 : insert_and_entry f s [] = insertMain f s [] := by
      simp [insert_and_entry, htail]
    rw [h0]
    by_cases hb : s.table0 <;> simp [insertMain, routeOf_nil, hb]
  refine ⟨by rw [h1], by rw [h1], by rw [h2], by simp, ?_, ?_, hempty⟩
  · rw [h2]
    exact mem_iterRefs_tail _ _ _ rfl (by simp)
  · rw [h2]
    exact mem_iterRefs_tail _ _ _ rfl (by simp)

theorem claim_C7_witness :
    (enable_tail_array emptyTable).tails = some [] ∧ ([97] : List Byte) ≠ [] ∧
    ((insert_and_entry zeroHash (enable_tail_array emptyTable) [97]).1
        = InsRes.ok (ERef.tail (List.length ([] : List FallbackKey))) ∧
      (insert_and_entry zeroHash (enable_tail_array emptyTable) [97]).2.tails
        = some ([] ++ [FallbackKey.new zeroHash [97]]) ∧
      (insert_and_entry zeroHash
        (insert_and_entry zeroHash (enable_tail_array emptyTable) [97]).2 [97]).1
        = InsRes.ok (ERef.tail (List.length ([] : List FallbackKey) + 1)) ∧
      ERef.tail (List.length ([] : List FallbackKey))
        ≠ ERef.tail (List.length ([] : List FallbackKey) + 1) ∧
      ERef.tail (List.length ([] : List FallbackKey))
        ∈ iterRefs (insert_and_entry zeroHash
            (insert_and_entry zeroHash (enable_tail_array emptyTable) [97]).2 [97]).2 ∧
      ERef.tail (List.length ([] : List FallbackKey) + 1)
        ∈ iterRefs (insert_and_entry zeroHash
            (insert_and_entry zeroHash (enable_tail_array emptyTable) [97]).2 [97]).2 ∧
      (insert_and_entry zeroHash (enable_tail_array emptyTable) []).1
        = (if (enable_tail_array emptyTable).table0 then InsRes.err ERef.t0
           else InsRes.ok ERef.t0)) :=
  ⟨rfl, by decide,
    claim_C7 zeroHash (enable_tail_array emptyTable) [] [97] rfl (by decide)⟩

/-- Claim C8: lookups never consult the tail list.  For a non-empty key
absent from the sub-tables, any sequence of inserts performed in tail
mode leaves `entry`, `entry_mut`, `get` and `get_mut` returning `None`
for that key. -/
theorem claim_C8 (f : List Byte → Nat) (s : HState) (k : List Byte)
    (ks : List (List Byte)) (htail : s.tails.isSome = true) (hk : k ≠ [])
    (hnone : entry f s k = none) :
    entry f (insertSeq f s ks) k = none ∧
    entry_mut f (insertSeq f s ks) k = none ∧
    get f (insertSeq f s ks) k = none ∧
    get_mut f (insertSeq f s ks) k = none := by
  obtain ⟨q1, q2, q3, q4, _⟩ := insertSeq_tailMode f ks s htail
  have he : entry f (insertSeq f s ks) k = entry f s k :=
    entry_eq_of_tables f _ s k hk q1 q2 q3 q4
  have hm : entry_mut f (insertSeq f s ks) k = none := by
    rw [entry_mut_eq_entry]
    exact he.trans hnone
  exact ⟨he.trans hnone, hm, he.trans hnone, hm⟩

theorem claim_C8_witness :
    (enable_tail_array emptyTable).tails.isSome = true ∧
    ([97] : List Byte) ≠ [] ∧
    entry zeroHash (enable_tail_array emptyTable) [97] = none ∧
    (entry zeroHash
        (insertSeq zeroHash (enable_tail_array emptyTable) [[97], [97]]) [97] = none ∧
      entry_mut zeroHash
        (insertSeq zeroHash (enable_tail_array emptyTable) [[97], [97]]) [97] = none ∧
      get zeroHash
        (insertSeq zeroHash (enable_tail_array emptyTable) [[97], [97]]) [97] = none ∧
      get_mut zeroHash
        (insertSeq zeroHash (enable_tail_array emptyTable) [[97], [97]]) [97] = none) :=
  ⟨rfl, by decide, by decide,
    claim_C8 zeroHash (enable_tail_array emptyTable) [97] [[97], [97]] rfl
      (by decide) (by decide)⟩

/-- Claim C9: on the T4 insert path (trailing-NUL or length at least 25,
tail mode off), a fresh insert copies the key into the arena and rewrites
the stored entry key to the arena-stable copy while keeping the hash
computed from the probe, and `key_size` grows by `len(k)`; a duplicate
insert leaves the arena, `key_size`, and the whole state unchanged. -/
theorem claim_C9 (f : List Byte → Nat) (s : HState) (k : List Byte)
    (htail : s.tails = none)
    (hroute : k.getLast? = some 0 ∨ 25 ≤ k.length) :
    (∀ e, (insert_and_entry f s k).1 = InsRes.ok e →
      e = ERef.t4 s.table4.length ∧
      (insert_and_entry f s k).2.arena = s.arena ++ [k] ∧
      (insert_and_entry f s k).2.table4 = s.table4 ++
        [FallbackKey.newWithHash k (f k) (PtrLoc.arena s.arena.length)] ∧
      (insert_and_entry f s k).2.keySize = s.keySize + k.length) ∧
    (∀ e, (insert_and_entry f s k).1 = InsRes.err e →
      (insert_and_entry f s k).2 = s) := by
  rw [insert_eq_main f s k htail]
  have hr := routeOf_r4_of hroute
  cases hl : lookupIdx (fun x => fkEq (FallbackKey.new f k) x) s.table4 with
  | some i =>
    have heq : insertMain f s k = (InsRes.err (ERef.t4 i), s) := by
      simp [insertMain, hr, hl]
    rw [heq]
    constructor
    · intro e he
      simp at he
    · intro e _
      rfl
  | none =>
    have heq : insertMain f s k =
        (InsRes.ok (ERef.t4 s.table4.length),
          { s with
              arena := s.arena ++ [k],
              table4 := s.table4 ++ [FallbackKey.newWithHash k (f k)
                (PtrLoc.arena s.arena.length)],
              keySize := s.keySize + k.length }) := by
      simp only [insertMain, hr, hl]
      simp [FallbackKey.new, FallbackKey.newWithHash]
    rw [heq]
    constructor
    · intro e he
      simp only [Option.some.injEq] at he
      have he2 : ERef.t4 s.table4.length = e := by
        injection he
      exact ⟨he2.symm, rfl, rfl, rfl⟩
    · intro e he
      simp at he

theorem claim_C9_witness :
    emptyTable.tails = none ∧
    (([1, 0] : List Byte).getLast? = some 0 ∨ 25 ≤ ([1, 0] : List Byte).length) ∧
    ((∀ e, (insert_and_entry zeroHash emptyTable [1, 0]).1 = InsRes.ok e →
      e = ERef.t4 emptyTable.table4.length ∧
      (insert_and_entry zeroHash emptyTable [1, 0]).2.arena
        = emptyTable.arena ++ [[1, 0]] ∧
      (insert_and_entry zeroHash emptyTable [1, 0]).2.table4 = emptyTable.table4 ++
        [FallbackKey.newWithHash [1, 0] (zeroHash [1, 0])
          (PtrLoc.arena emptyTable.arena.length)] ∧
      (insert_and_entry zeroHash emptyTable [1, 0]).2.keySize
        = emptyTable.keySize + ([1, 0] : List Byte).length) ∧
    (∀ e, (insert_and_entry zeroHash emptyTable [1, 0]).1 = InsRes.err e →
      (insert_and_entry zeroHash emptyTable [1, 0]).2 = emptyTable)) :=
  ⟨rfl, by decide, claim_C9 zeroHash emptyTable [1, 0] rfl (by decide)⟩

/-- Claim C10: with the tail array enabled and a non-empty key, the
result of `insert_and_entry_with_hash` does not depend on the supplied
hash: the tail path stores `FallbackKey::new(k)`, which recomputes the
hash from the bytes and discards the argument. -/
theorem claim_C10 (f : List Byte → Nat) (s : HState) (ts : List FallbackKey)
    (k : List Byte) (h1 h2 : Nat) (htail : s.tails = some ts) (hk : k ≠ []) :
    insert_and_entry_with_hash f s k h1 = insert_and_entry_with_hash f s k h2 ∧
    insert_and_entry_with_hash f s k h1 =
      (InsRes.ok (ERef.tail ts.length),
        { s with tails := some (ts ++ [FallbackKey.new f k]) }) := by
  constructor <;> simp [insert_and_entry_with_hash, htail, hk]

theorem claim_C10_witness :
    (enable_tail_array emptyTable).tails = some [] ∧ ([97] : List Byte) ≠ [] ∧
    (insert_and_entry_with_hash zeroHash (enable_tail_array emptyTable) [97] 5
        = insert_and_entry_with_hash zeroHash (enable_tail_array emptyTable) [97] 11 ∧
      insert_and_entry_with_hash zeroHash (enable_tail_array emptyTable) [97] 5 =
        (InsRes.ok (ERef.tail (List.length ([] : List FallbackKey))),
          { enable_tail_array emptyTable with
              tails := some ([] ++ [FallbackKey.new zeroHash [97]]) })) :=
  ⟨rfl, by decide,
    claim_C10 zeroHash (enable_tail_array emptyTable) [] [97] 5 11 rfl (by decide)⟩
